import Mathlib

/-!
Verification of the Lisk `Transaction` storage entity
(`framework/src/components/storage/entities/transaction.js`).

The entity layer is embedded shallowly over a model of JavaScript values
(`JVal`): objects are association lists in insertion order, rows are flat
objects mapping column names to values, and the materializer, sort resolver,
filter sanitizer and mutation guards are translated statement by statement
from the source.  Behaviour of the shared `BaseEntity` class and of the
storage adapter, which are outside the entity source file, is modelled from
the specification where a claim depends on it; such definitions carry a
`Modelled from the spec:` doc comment.
-/

set_option autoImplicit false

/-- A JavaScript runtime value, restricted to the kinds that flow through the
transaction entity: primitives, Node `Buffer`s (byte sequences), arrays and
plain objects.  Objects are association lists in property insertion order,
matching the enumeration order of the string-keyed columns of a row. -/
inductive JVal where
  | null
  | undefined
  | bool (b : Bool)
  | num (n : Int)
  | str (s : String)
  | buf (bs : List UInt8)
  | arr (xs : List JVal)
  | obj (fields : List (String × JVal))
  deriving Repr

mutual

/-- Decidable equality of JavaScript values (structural). -/
def JVal.decEq : (a b : JVal) → Decidable (a = b)
  | .null, .null => .isTrue rfl
  | .undefined, .undefined => .isTrue rfl
  | .bool x, .bool y =>
    if h : x = y then .isTrue (h ▸ rfl) else .isFalse (fun hh => h (JVal.bool.inj hh))
  | .num x, .num y =>
    if h : x = y then .isTrue (h ▸ rfl) else .isFalse (fun hh => h (JVal.num.inj hh))
  | .str x, .str y =>
    if h : x = y then .isTrue (h ▸ rfl) else .isFalse (fun hh => h (JVal.str.inj hh))
  | .buf x, .buf y =>
    if h : x = y then .isTrue (h ▸ rfl) else .isFalse (fun hh => h (JVal.buf.inj hh))
  | .arr xs, .arr ys =>
    match JVal.decEqList xs ys with
    | .isTrue h => .isTrue (h ▸ rfl)
    | .isFalse h => .isFalse (fun hh => h (JVal.arr.inj hh))
  | .obj fs, .obj gs =>
    match JVal.decEqFields fs gs with
    | .isTrue h => .isTrue (h ▸ rfl)
    | .isFalse h => .isFalse (fun hh => h (JVal.obj.inj hh))
  | .null, .undefined | .null, .bool _ | .null, .num _ | .null, .str _
  | .null, .buf _ | .null, .arr _ | .null, .obj _
  | .undefined, .null | .undefined, .bool _ | .undefined, .num _ | .undefined, .str _
  | .undefined, .buf _ | .undefined, .arr _ | .undefined, .obj _
  | .bool _, .null | .bool _, .undefined | .bool _, .num _ | .bool _, .str _
  | .bool _, .buf _ | .bool _, .arr _ | .bool _, .obj _
  | .num _, .null | .num _, .undefined | .num _, .bool _ | .num _, .str _
  | .num _, .buf _ | .num _, .arr _ | .num _, .obj _
  | .str _, .null | .str _, .undefined | .str _, .bool _ | .str _, .num _
  | .str _, .buf _ | .str _, .arr _ | .str _, .obj _
  | .buf _, .null | .buf _, .undefined | .buf _, .bool _ | .buf _, .num _
  | .buf _, .str _ | .buf _, .arr _ | .buf _, .obj _
  | .arr _, .null | .arr _, .undefined | .arr _, .bool _ | .arr _, .num _
  | .arr _, .str _ | .arr _, .buf _ | .arr _, .obj _
  | .obj _, .null | .obj _, .undefined | .obj _, .bool _ | .obj _, .num _
  | .obj _, .str _ | .obj _, .buf _ | .obj _, .arr _ =>
    .isFalse (fun h => JVal.noConfusion h)

/-- Decidable equality of lists of JavaScript values. -/
def JVal.decEqList : (xs ys : List JVal) → Decidable (xs = ys)
  | [], [] => .isTrue rfl
  | [], _ :: _ => .isFalse (fun h => List.noConfusion h)
  | _ :: _, [] => .isFalse (fun h => List.noConfusion h)
  | x :: xs, y :: ys =>
    match JVal.decEq x y with
    | .isFalse h => .isFalse (fun hh => h (List.cons.inj hh).1)
    | .isTrue h1 =>
      match JVal.decEqList xs ys with
      | .isTrue h2 => .isTrue (by rw [h1, h2])
      | .isFalse h2 => .isFalse (fun hh => h2 (List.cons.inj hh).2)

/-- Decidable equality of property lists of JavaScript objects. -/
def JVal.decEqFields : (fs gs : List (String × JVal)) → Decidable (fs = gs)
  | [], [] => .isTrue rfl
  | [], _ :: _ => .isFalse (fun h => List.noConfusion h)
  | _ :: _, [] => .isFalse (fun h => List.noConfusion h)
  | (k, v) :: fs, (k2, v2) :: gs =>
    if hk : k = k2 then
      match JVal.decEq v v2 with
      | .isFalse h => .isFalse (fun hh => h (congrArg Prod.snd (List.cons.inj hh).1))
      | .isTrue hv =>
        match JVal.decEqFields fs gs with
        | .isTrue h2 => .isTrue (by rw [hk, hv, h2])
        | .isFalse h2 => .isFalse (fun hh => h2 (List.cons.inj hh).2)
    else
      .isFalse (fun hh => hk (congrArg Prod.fst (List.cons.inj hh).1))

end

instance : DecidableEq JVal := JVal.decEq

/-- A JavaScript object: property names paired with values, in insertion
order. -/
abbrev JObj := List (String × JVal)

/-- JavaScript truthiness for the modelled value kinds.  Buffers, arrays and
objects are always truthy (they are objects), the empty string and the number
zero are falsy. -/
def truthy : JVal → Bool
  | .null => false
  | .undefined => false
  | .bool b => b
  | .num n => n != 0
  | .str s => s != ""
  | .buf _ => true
  | .arr _ => true
  | .obj _ => true

/-- Property read `o[k]` on an object: the first binding of `k`, or
`undefined` when the property is absent. -/
def objGet (o : JObj) (k : String) : JVal :=
  match o.lookup k with
  | some v => v
  | none => .undefined

/-- Property write `o[k] = v` on an object: overwrite the existing binding in
place (keeping its position), otherwise append the new property at the end,
as JavaScript insertion order does. -/
def objSet : JObj → String → JVal → JObj
  | [], k, v => [(k, v)]
  | p :: tl, k, v => if p.1 == k then (k, v) :: tl else p :: objSet tl k v

/-- Property removal `delete o[k]`. -/
def objDelete (o : JObj) (k : String) : JObj :=
  o.filter (fun p => p.1 != k)

/-- Property read on an arbitrary value: reading a property of a non-object
yields `undefined` (primitives have no own properties of interest here;
`null`/`undefined` would throw, which no guarded access in the source
reaches). -/
def objField : JVal → String → JVal
  | .obj o, k => objGet o k
  | _, _ => .undefined

/-- Split a dotted property path into its segments, as lodash `_.set` does for
simple dotted paths (the only shape the asset attribute map uses): the string
is cut at every dot. -/
def splitPathAux : List Char → List Char → List String
  | [], acc => [String.mk acc.reverse]
  | '.' :: rest, acc => String.mk acc.reverse :: splitPathAux rest []
  | c :: rest, acc => splitPathAux rest (c :: acc)

/-- Path segments of a dotted path string such as "asset.dapp.name". -/
def splitPath (s : String) : List String :=
  splitPathAux s.data []

/-- Embeds lodash `_.set(obj, path, v)` for the already-split path: walk the
segments, overwriting the final property and descending through existing
object properties; a missing or non-object intermediate is replaced by a
fresh empty object (no path segment used by this entity is an array index).
Writing into a non-object root is not reached by the source (the target is
always the transaction object under construction). -/
def setIn : JVal → List String → JVal → JVal
  | cur, [], _ => cur
  | cur, [k], v =>
    match cur with
    | .obj o => .obj (objSet o k v)
    | _ => cur
  | cur, k :: k2 :: rest, v =>
    match cur with
    | .obj o =>
      let child : JVal :=
        match objGet o k with
        | .obj c => .obj c
        | _ => .obj ([] : JObj)
      .obj (objSet o k (setIn child (k2 :: rest) v))
    | _ => cur

/-- Read a value at a nested path: each segment is a property read, and
reading a property of a non-object yields `undefined`. -/
def getPath : JVal → List String → JVal
  | v, [] => v
  | v, k :: rest => getPath (objField v k) rest

/-- JavaScript property-key string coercion, applied by the lookup
`assetAttributesMap[transaction.type]`.  It is faithful for the primitive
values a `type` column can hold (numbers, strings, booleans, null,
undefined); buffers and arrays coerce through their own JS `toString`,
abbreviated here to fixed marker strings, which is sound for this use because
the map's keys are the digit strings "0".."7" and a wide-table integer column
never holds an object-like value. -/
def jsKeyString : JVal → String
  | .num n => toString n
  | .str s => s
  | .bool b => if b then "true" else "false"
  | .null => "null"
  | .undefined => "undefined"
  | .buf _ => "[buffer]"
  | .arr _ => "[array]"
  | .obj _ => "[object Object]"

/-- The static `assetAttributesMap` of lines 124-145: for each transaction
type discriminant (a property key, hence a string), the dotted payload paths
belonging to that type. -/
def assetAttributesEntries : List (String × List String) :=
  [ ("0", ["asset.data"]),
    ("1", ["asset.signature.publicKey"]),
    ("2", ["asset.delegate.username"]),
    ("3", ["asset.votes"]),
    ("4", ["asset.multisignature.min",
           "asset.multisignature.lifetime",
           "asset.multisignature.keysgroup"]),
    ("5", ["asset.dapp.type",
           "asset.dapp.name",
           "asset.dapp.description",
           "asset.dapp.tags",
           "asset.dapp.link",
           "asset.dapp.icon",
           "asset.dapp.category"]),
    ("6", ["asset.inTransfer.dappId"]),
    ("7", ["asset.outTransfer.dappId", "asset.outTransfer.transactionId"]) ]

/-- Embeds `assetAttributesMap[transaction.type] || []` (line 466-467): look
the coerced discriminant up in the static map, defaulting to no paths. -/
def assetAttributesFor (t : JVal) : List String :=
  (assetAttributesEntries.lookup (jsKeyString t)).getD []

/-- Every dotted payload path registered in the static map, over all
discriminants. -/
def allAssetPaths : List String :=
  (assetAttributesEntries.map Prod.snd).flatten

/-- Embeds the test `k.match(/^asset./)` of line 461: the column name starts
with "asset" followed by at least one further character. -/
def matchAssetPrefix (k : String) : Bool :=
  k.take 5 == "asset" && 6 ≤ k.length

/-- A column name in the payload namespace: either a dotted payload column
(`asset.` and friends, per the source's regular expression) or the payload
container name itself. -/
def inPayloadNamespace (k : String) : Bool :=
  matchAssetPrefix k || k == "asset"

/-- Embeds lines 454-464 of `_formatTransactionResult`: start from an empty
object (pre-seeded with an empty `asset` container in extended mode) and copy
every column of the row whose name does not match `/^asset./`, in column
order. -/
def copyStep (acc : JObj) (kv : String × JVal) : JObj :=
  if matchAssetPrefix kv.1 then acc else objSet acc kv.1 kv.2

/-- The transaction object after the column-copy loop. -/
def transactionBase (row : JObj) (extended : Bool) : JObj :=
  let seed : JObj := if extended then [("asset", .obj [])] else []
  row.foldl copyStep seed

/-- Embeds lines 466-474: look the copied `type` up in the asset attribute
map and, for each registered dotted path whose raw row value is neither null
nor undefined, set the value at that path in the transaction object (the raw
value is read under the full dotted column name). -/
def assetStep (row : JObj) (acc : JVal) (p : String) : JVal :=
  match objGet row p with
  | .null => acc
  | .undefined => acc
  | v => setIn acc (splitPath p) v

/-- The transaction object after the column copy and the asset-path loop. -/
def transactionWithAssetVal (row : JObj) (extended : Bool) : JVal :=
  let base := transactionBase row extended
  let attrs := assetAttributesFor (objGet base "type")
  attrs.foldl (assetStep row) (.obj base)

/-- The transaction object after the column copy and the asset-path copy,
as a property list. -/
def transactionWithAsset (row : JObj) (extended : Bool) : JObj :=
  match transactionWithAssetVal row extended with
  | .obj o => o
  | _ => []

/-- Embeds `value.toString('utf8')` inside the try block of lines 477-486.
For a Buffer this is utf8 text decoding, performed by an external decoder
that may fail (`none` models a thrown decode error).  For a Number,
`Number.prototype.toString` rejects 'utf8' as a radix, so the attempt fails.
Strings ignore the argument; booleans and plain objects stringify through
their default `toString` (arrays are abbreviated to a marker string — a
comma join in JS — which no claim depends on).  The null and undefined cases
are unreachable behind the truthiness guard of line 476. -/
def toStringUtf8 (decode : List UInt8 → Option String) : JVal → Option JVal
  | .buf bs => (decode bs).map JVal.str
  | .num _ => none
  | .str s => some (.str s)
  | .bool b => some (.str (if b then "true" else "false"))
  | .arr _ => some (.str "[array]")
  | .obj _ => some (.str "[object Object]")
  | .null => none
  | .undefined => none

/-- Embeds lines 476-486: for discriminant 0, when the asset container and
its `data` property are truthy, replace `asset.data` by its text decoding;
when the decode attempt fails, the catch block deletes the whole `asset`
container instead of propagating the error. -/
def applyTransferDecode (decode : List UInt8 → Option String) (t : JObj) : JObj :=
  if objGet t "type" = .num 0 then
    let asset := objGet t "asset"
    let dat := objField asset "data"
    if truthy asset && truthy dat then
      match toStringUtf8 decode dat with
      | some s =>
        match setIn (.obj t) ["asset", "data"] s with
        | .obj o => o
        | _ => t
      | none => objDelete t "asset"
    else t
  else t

/-- Embeds lines 488-490: a truthy `signatures` value is replaced by
`signatures.filter(Boolean)`; a falsy one is left alone.  A truthy non-array
value would make the `.filter` call throw a TypeError, modelled as `none`. -/
def applySignaturesFilter (t : JObj) : Option JObj :=
  match objGet t "signatures" with
  | .arr xs => some (objSet t "signatures" (.arr (xs.filter truthy)))
  | v => if truthy v then none else some t

/-- Embeds `Transaction._formatTransactionResult(row, extended)`
(lines 453-492) end to end: copy the non-asset columns over the (possibly
pre-seeded) output, copy the discriminant's registered asset paths, apply
the discriminant-0 text decode with its swallow-and-drop error policy, and
filter falsy signature entries.  `none` models an uncaught exception. -/
def formatTransactionResult (decode : List UInt8 → Option String)
    (row : JObj) (extended : Bool) : Option JObj :=
  applySignaturesFilter (applyTransferDecode decode (transactionWithAsset row extended))

example :
    formatTransactionResult (fun _ => none)
      [("type", .num 3), ("id", .str "t1"), ("asset.votes", .arr [.str "+a"]),
       ("asset.delegate.username", .str "zoe")]
      false =
    some [("type", .num 3), ("id", .str "t1"), ("asset", .obj [("votes", .arr [.str "+a"])])] := by
  decide

example :
    formatTransactionResult (fun _ => none)
      [("type", .num 0), ("id", .str "t1"), ("asset.data", .buf [255])]
      true =
    some [("type", .num 0), ("id", .str "t1")] := by
  decide

example :
    formatTransactionResult (fun bs => if bs = [104, 105] then some "hi" else none)
      [("type", .num 0), ("asset.data", .buf [104, 105]),
       ("signatures", .arr [.str "sigA", .str "", .null, .str "sigB"])]
      false =
    some [("type", .num 0), ("signatures", .arr [.str "sigA", .str "sigB"]),
          ("asset", .obj [("data", .str "hi")])] := by
  decide

/-! ### Object and path lemmas -/

theorem lookup_cons_same {b : JVal} {l : JObj} (a k : String) (h : (k == a) = true)
    : List.lookup k ((a, b) :: l) = some b := by
  simp [List.lookup, h]

theorem lookup_cons_diff {b : JVal} {l : JObj} (a k : String) (h : (k == a) = false)
    : List.lookup k ((a, b) :: l) = List.lookup k l := by
  simp [List.lookup, h]

theorem lookup_objSet_self (o : JObj) (k : String) (v : JVal) :
    (objSet o k v).lookup k = some v := by
  induction o with
  | nil => simp [objSet, List.lookup]
  | cons p tl ih =>
    obtain ⟨a, b⟩ := p
    by_cases h : a = k
    · subst h
      simp [objSet, List.lookup]
    · have hb2 : (k == a) = false := by
        simp only [beq_eq_false_iff_ne, ne_eq]
        exact fun hh => h hh.symm
      simp only [objSet]
      rw [if_neg (by simp [h])]
      rw [lookup_cons_diff a k hb2]
      exact ih

theorem lookup_objSet_ne (o : JObj) (k k2 : String) (v : JVal) (h : k2 ≠ k) :
    (objSet o k v).lookup k2 = o.lookup k2 := by
  have hk2k : (k2 == k) = false := by simp [h]
  induction o with
  | nil => simp [objSet, List.lookup, hk2k]
  | cons p tl ih =>
    obtain ⟨a, b⟩ := p
    by_cases hp : a = k
    · subst hp
      simp only [objSet]
      rw [if_pos (by simp)]
      rw [lookup_cons_diff a k2 hk2k, lookup_cons_diff a k2 hk2k]
    · simp only [objSet]
      rw [if_neg (by simp [hp])]
      by_cases hk2 : k2 = a
      · rw [lookup_cons_same a k2 (by simp [hk2]), lookup_cons_same a k2 (by simp [hk2])]
      · have hd : (k2 == a) = false := by simp [hk2]
        rw [lookup_cons_diff a k2 hd, lookup_cons_diff a k2 hd]
        exact ih

theorem objGet_objSet_self (o : JObj) (k : String) (v : JVal) :
    objGet (objSet o k v) k = v := by
  simp [objGet, lookup_objSet_self]

theorem objGet_objSet_ne (o : JObj) (k k2 : String) (v : JVal) (h : k2 ≠ k) :
    objGet (objSet o k v) k2 = objGet o k2 := by
  simp [objGet, lookup_objSet_ne o k k2 v h]

theorem lookup_objDelete_self (o : JObj) (k : String) :
    (objDelete o k).lookup k = none := by
  induction o with
  | nil => simp [objDelete]
  | cons p tl ih =>
    obtain ⟨a, b⟩ := p
    by_cases h : a = k
    · subst h
      simpa [objDelete, List.filter_cons] using ih
    · have hb2 : (k == a) = false := by
        simp only [beq_eq_false_iff_ne, ne_eq]
        exact fun hh => h hh.symm
      have hf : (((a, b).1 != k) = true) := by simp [h]
      simp only [objDelete, List.filter_cons, hf, if_true]
      rw [lookup_cons_diff a k hb2]
      simpa [objDelete] using ih

theorem lookup_objDelete_ne (o : JObj) (k k2 : String) (h : k2 ≠ k) :
    (objDelete o k).lookup k2 = o.lookup k2 := by
  induction o with
  | nil => simp [objDelete]
  | cons p tl ih =>
    obtain ⟨a, b⟩ := p
    by_cases hp : a = k
    · subst hp
      have hb : (k2 == a) = false := by simp [h]
      simp only [objDelete, List.filter_cons, bne_self_eq_false]
      rw [if_neg (by simp)]
      rw [lookup_cons_diff a k2 hb]
      simpa [objDelete] using ih
    · have hf : (((a, b).1 != k) = true) := by simp [hp]
      simp only [objDelete, List.filter_cons, hf, if_true]
      by_cases hk2 : k2 = a
      · rw [lookup_cons_same a k2 (by simp [hk2]), lookup_cons_same a k2 (by simp [hk2])]
      · have hd : (k2 == a) = false := by simp [hk2]
        rw [lookup_cons_diff a k2 hd, lookup_cons_diff a k2 hd]
        simpa [objDelete] using ih

theorem objGet_objDelete_ne (o : JObj) (k k2 : String) (h : k2 ≠ k) :
    objGet (objDelete o k) k2 = objGet o k2 := by
  simp [objGet, lookup_objDelete_ne o k k2 h]

theorem getPath_undef : ∀ p : List String, getPath .undefined p = .undefined
  | [] => rfl
  | _ :: rest => getPath_undef rest

theorem objField_non_obj {v : JVal} (k : String)
    (h : ∀ o : JObj, v ≠ .obj o) : objField v k = .undefined := by
  cases v <;> first | rfl | exact absurd rfl (h _)

theorem setIn_obj (p : List String) (o : JObj) (v : JVal) :
    ∃ o2 : JObj, setIn (.obj o) p v = .obj o2 := by
  match p with
  | [] => exact ⟨o, rfl⟩
  | [k] => exact ⟨objSet o k v, rfl⟩
  | k :: k2 :: rest => exact ⟨_, rfl⟩

theorem getPath_setIn_self : ∀ (p : List String) (o : JObj) (v : JVal), p ≠ [] →
    getPath (setIn (.obj o) p v) p = v := by
  intro p
  induction p with
  | nil => intro o v h; exact absurd rfl h
  | cons k rest ih =>
    intro o v _
    cases rest with
    | nil =>
      show getPath (.obj (objSet o k v)) [k] = v
      simp [getPath, objField, objGet_objSet_self]
    | cons k2 rest2 =>
      show getPath (setIn (.obj o) (k :: k2 :: rest2) v) (k :: k2 :: rest2) = v
      simp only [setIn]
      cases hch : objGet o k with
      | obj c =>
        simp only [hch, getPath, objField, objGet_objSet_self]
        exact ih c v (by simp)
      | null =>
        simp only [hch, getPath, objField, objGet_objSet_self]
        exact ih [] v (by simp)
      | undefined =>
        simp only [hch, getPath, objField, objGet_objSet_self]
        exact ih [] v (by simp)
      | bool b =>
        simp only [hch, getPath, objField, objGet_objSet_self]
        exact ih [] v (by simp)
      | num n =>
        simp only [hch, getPath, objField, objGet_objSet_self]
        exact ih [] v (by simp)
      | str s =>
        simp only [hch, getPath, objField, objGet_objSet_self]
        exact ih [] v (by simp)
      | buf bs =>
        simp only [hch, getPath, objField, objGet_objSet_self]
        exact ih [] v (by simp)
      | arr xs =>
        simp only [hch, getPath, objField, objGet_objSet_self]
        exact ih [] v (by simp)

/-- Two nonempty paths diverge when, at the first position where they differ,
both still have a segment: neither is a prefix of the other, so writing along
one cannot disturb a read along the other. -/
def pathDiverges : List String → List String → Bool
  | p :: ps, q :: qs => p != q || pathDiverges ps qs
  | _, _ => false

theorem getPath_setIn_div : ∀ (p q : List String) (o : JObj) (v : JVal),
    pathDiverges p q = true →
    getPath (setIn (.obj o) p v) q = getPath (.obj o) q := by
  intro p
  induction p with
  | nil =>
    intro q o v h
    simp [pathDiverges] at h
  | cons k ps ih =>
    intro q o v h
    match q with
    | [] => simp [pathDiverges] at h
    | k2 :: qs =>
      by_cases hk : k = k2
      · subst hk
        have hdiv : pathDiverges ps qs = true := by
          simpa [pathDiverges] using h
        match hps : ps, hqs : qs with
        | [], _ => simp [pathDiverges] at hdiv
        | _ :: _, [] => simp [pathDiverges] at hdiv
        | p2 :: ps2, q2 :: qs2 =>
          simp only [setIn, getPath, objField, objGet_objSet_self]
          cases hch : objGet o k with
          | obj c =>
            have := ih (q2 :: qs2) c v hdiv
            simpa [getPath, objField] using this
          | null =>
            have := ih (q2 :: qs2) [] v hdiv
            simp only [getPath, objField] at this ⊢
            rw [this]
            simp [objGet, List.lookup, getPath_undef]
          | undefined =>
            have := ih (q2 :: qs2) [] v hdiv
            simp only [getPath, objField] at this ⊢
            rw [this]
            simp [objGet, List.lookup, getPath_undef]
          | bool b =>
            have := ih (q2 :: qs2) [] v hdiv
            simp only [getPath, objField] at this ⊢
            rw [this]
            simp [objGet, List.lookup, getPath_undef]
          | num n =>
            have := ih (q2 :: qs2) [] v hdiv
            simp only [getPath, objField] at this ⊢
            rw [this]
            simp [objGet, List.lookup, getPath_undef]
          | str s =>
            have := ih (q2 :: qs2) [] v hdiv
            simp only [getPath, objField] at this ⊢
            rw [this]
            simp [objGet, List.lookup, getPath_undef]
          | buf bs =>
            have := ih (q2 :: qs2) [] v hdiv
            simp only [getPath, objField] at this ⊢
            rw [this]
            simp [objGet, List.lookup, getPath_undef]
          | arr xs =>
            have := ih (q2 :: qs2) [] v hdiv
            simp only [getPath, objField] at this ⊢
            rw [this]
            simp [objGet, List.lookup, getPath_undef]
      · match hps : ps with
        | [] =>
          simp only [setIn, getPath, objField]
          rw [objGet_objSet_ne o k k2 v (fun hh => hk hh.symm)]
        | p2 :: ps2 =>
          simp only [setIn, getPath, objField]
          rw [objGet_objSet_ne o k k2 _ (fun hh => hk hh.symm)]

theorem lookup_mem {β : Type} : ∀ (l : List (String × β)) (k : String) (v : β),
    l.lookup k = some v → (k, v) ∈ l := by
  intro l
  induction l with
  | nil => intro k v h; simp [List.lookup] at h
  | cons p tl ih =>
    intro k v h
    obtain ⟨a, b⟩ := p
    by_cases hk : k = a
    · subst hk
      simp only [List.lookup, beq_self_eq_true] at h
      cases h
      exact List.mem_cons_self _ _
    · have hb : (k == a) = false := by simp [hk]
      rw [List.lookup, hb] at h
      exact List.mem_cons_of_mem _ (ih k v h)

theorem lookup_none {β : Type} : ∀ (l : List (String × β)) (k : String),
    l.lookup k = none → k ∉ l.map Prod.fst := by
  intro l
  induction l with
  | nil => intro k _; simp
  | cons p tl ih =>
    intro k h
    obtain ⟨a, b⟩ := p
    by_cases hk : k = a
    · subst hk
      simp only [List.lookup, beq_self_eq_true] at h
      exact absurd h (by simp)
    · have hb : (k == a) = false := by simp [hk]
      rw [List.lookup, hb] at h
      simpa [hk] using ih k h

theorem copyFold_lookup_of_not_mem : ∀ (rows : JObj) (acc : JObj) (k : String),
    k ∉ rows.map Prod.fst →
    (rows.foldl copyStep acc).lookup k = acc.lookup k := by
  intro rows
  induction rows with
  | nil => intro acc k _; rfl
  | cons p tl ih =>
    intro acc k h
    obtain ⟨a, b⟩ := p
    have h2 : ¬(k = a ∨ k ∈ tl.map Prod.fst) := by simpa using h
    have hk : k ≠ a := fun hh => h2 (Or.inl hh)
    have htl : k ∉ tl.map Prod.fst := fun hh => h2 (Or.inr hh)
    rw [List.foldl_cons, ih (copyStep acc (a, b)) k htl]
    unfold copyStep
    by_cases hm : matchAssetPrefix a
    · simp [hm]
    · simp only [hm, Bool.false_eq_true, if_false]
      exact lookup_objSet_ne acc a k b hk

theorem copyFold_lookup_of_mem : ∀ (rows : JObj) (acc : JObj) (k : String) (v : JVal),
    (rows.map Prod.fst).Nodup → (k, v) ∈ rows → matchAssetPrefix k = false →
    (rows.foldl copyStep acc).lookup k = some v := by
  intro rows
  induction rows with
  | nil => intro acc k v _ h _; simp at h
  | cons p tl ih =>
    intro acc k v hnd hmem hnm
    obtain ⟨a, b⟩ := p
    have hnd1 : (a :: tl.map Prod.fst).Nodup := by simpa only [List.map_cons] using hnd
    have hnd2 := List.nodup_cons.mp hnd1
    rcases List.mem_cons.mp hmem with heq | htl
    · cases heq
      rw [List.foldl_cons]
      have hstep : copyStep acc (k, v) = objSet acc k v := by
        simp [copyStep, hnm]
      rw [hstep]
      rw [copyFold_lookup_of_not_mem tl (objSet acc k v) k hnd2.1]
      exact lookup_objSet_self acc k v
    · rw [List.foldl_cons]
      exact ih (copyStep acc (a, b)) k v hnd2.2 htl hnm

theorem assetStep_skip (row : JObj) (acc : JVal) (p : String)
    (h : objGet row p = .null ∨ objGet row p = .undefined) :
    assetStep row acc p = acc := by
  rcases h with h | h <;> simp [assetStep, h]

theorem assetStep_set (row : JObj) (acc : JVal) (p : String)
    (h1 : objGet row p ≠ .null) (h2 : objGet row p ≠ .undefined) :
    assetStep row acc p = setIn acc (splitPath p) (objGet row p) := by
  cases h : objGet row p <;> simp_all [assetStep]

theorem assetStep_obj (row : JObj) (o : JObj) (p : String) :
    ∃ o2 : JObj, assetStep row (.obj o) p = .obj o2 := by
  by_cases h1 : objGet row p = .null
  · exact ⟨o, by rw [assetStep_skip row _ p (Or.inl h1)]⟩
  · by_cases h2 : objGet row p = .undefined
    · exact ⟨o, by rw [assetStep_skip row _ p (Or.inr h2)]⟩
    · rw [assetStep_set row _ p h1 h2]
      exact setIn_obj _ o _

theorem assetFold_obj : ∀ (l : List String) (row : JObj) (o : JObj),
    ∃ o2 : JObj, l.foldl (assetStep row) (.obj o) = .obj o2 := by
  intro l
  induction l with
  | nil => intro row o; exact ⟨o, rfl⟩
  | cons p tl ih =>
    intro row o
    obtain ⟨o1, ho1⟩ := assetStep_obj row o p
    rw [List.foldl_cons, ho1]
    exact ih row o1

theorem assetFold_preserve : ∀ (l : List String) (row o : JObj) (q : List String),
    (∀ p ∈ l, pathDiverges (splitPath p) q = true ∨
       objGet row p = .null ∨ objGet row p = .undefined) →
    getPath (l.foldl (assetStep row) (.obj o)) q = getPath (.obj o) q := by
  intro l
  induction l with
  | nil => intro row o q _; rfl
  | cons p tl ih =>
    intro row o q h
    rw [List.foldl_cons]
    by_cases hskip : objGet row p = .null ∨ objGet row p = .undefined
    · rw [assetStep_skip row _ p hskip]
      exact ih row o q (fun r hr => h r (List.mem_cons_of_mem _ hr))
    · push_neg at hskip
      rw [assetStep_set row _ p hskip.1 hskip.2]
      obtain ⟨o1, ho1⟩ := setIn_obj (splitPath p) o (objGet row p)
      rw [ho1]
      rw [ih row o1 q (fun r hr => h r (List.mem_cons_of_mem _ hr))]
      rw [← ho1]
      rcases h p (List.mem_cons_self _ _) with hdiv | hnull
      · exact getPath_setIn_div (splitPath p) q o (objGet row p) hdiv
      · exact absurd hnull (by push_neg; exact hskip)

theorem assetFold_get : ∀ (l : List String) (row o : JObj) (p : String),
    p ∈ l → l.Nodup →
    (∀ r ∈ l, r ≠ p → pathDiverges (splitPath r) (splitPath p) = true) →
    splitPath p ≠ [] →
    objGet row p ≠ .null → objGet row p ≠ .undefined →
    getPath (l.foldl (assetStep row) (.obj o)) (splitPath p) = objGet row p := by
  intro l
  induction l with
  | nil => intro row o p h; simp at h
  | cons a tl ih =>
    intro row o p hmem hnd hdiv hsp h1 h2
    have hnd2 := List.nodup_cons.mp hnd
    rw [List.foldl_cons]
    rcases List.mem_cons.mp hmem with heq | htl
    · subst heq
      rw [assetStep_set row _ p h1 h2]
      obtain ⟨o1, ho1⟩ := setIn_obj (splitPath p) o (objGet row p)
      rw [ho1]
      rw [assetFold_preserve tl row o1 (splitPath p) ?hdivs]
      case hdivs =>
        intro r hr
        exact Or.inl (hdiv r (List.mem_cons_of_mem _ hr)
          (fun hrp => hnd2.1 (hrp ▸ hr)))
      rw [← ho1]
      exact getPath_setIn_self (splitPath p) o (objGet row p) hsp
    · obtain ⟨o1, ho1⟩ := assetStep_obj row o a
      rw [ho1]
      exact ih row o1 p htl hnd2.2
        (fun r hr => hdiv r (List.mem_cons_of_mem _ hr)) hsp h1 h2

theorem getPath_single (o : JObj) (k : String) : getPath (.obj o) [k] = objGet o k := by
  simp [getPath, objField]

theorem inPayloadNamespace_false {k : String} (h : inPayloadNamespace k = false) :
    matchAssetPrefix k = false ∧ k ≠ "asset" := by
  unfold inPayloadNamespace at h
  constructor
  · exact (Bool.or_eq_false_iff.mp h).1
  · intro hk
    rw [hk] at h
    simp [matchAssetPrefix] at h

theorem transactionBase_lookup (row : JObj) (ext : Bool) (k : String)
    (hnd : (row.map Prod.fst).Nodup) (hk : inPayloadNamespace k = false) :
    (transactionBase row ext).lookup k = row.lookup k := by
  obtain ⟨hnm, hka⟩ := inPayloadNamespace_false hk
  unfold transactionBase
  cases hlk : row.lookup k with
  | some v =>
    exact (copyFold_lookup_of_mem row _ k v hnd (lookup_mem row k v hlk) hnm).trans rfl
  | none =>
    rw [copyFold_lookup_of_not_mem row _ k (lookup_none row k hlk)]
    cases ext
    · rfl
    · rw [if_pos rfl]
      rw [lookup_cons_diff "asset" k (by simp [hka])]
      rfl

theorem transactionBase_lookup_asset (row : JObj) (ext : Bool)
    (hna : "asset" ∉ row.map Prod.fst) :
    (transactionBase row ext).lookup "asset" =
      (if ext then some (.obj ([] : JObj)) else none) := by
  unfold transactionBase
  rw [copyFold_lookup_of_not_mem row _ "asset" hna]
  cases ext
  · rfl
  · simp [List.lookup]

theorem transactionBase_objGet (row : JObj) (ext : Bool) (k : String)
    (hnd : (row.map Prod.fst).Nodup) (hk : inPayloadNamespace k = false) :
    objGet (transactionBase row ext) k = objGet row k := by
  simp [objGet, transactionBase_lookup row ext k hnd hk]

/-! ### Facts about the static asset attribute map -/

theorem assetAttributesFor_cases (t : JVal) :
    assetAttributesFor t = [] ∨
      (jsKeyString t, assetAttributesFor t) ∈ assetAttributesEntries := by
  unfold assetAttributesFor
  cases h : assetAttributesEntries.lookup (jsKeyString t) with
  | none => exact Or.inl rfl
  | some l => exact Or.inr (by simpa using lookup_mem _ _ l h)

theorem entry_paths_sub : ∀ e ∈ assetAttributesEntries, ∀ p ∈ e.2, p ∈ allAssetPaths := by
  decide

theorem entry_paths_nodup : ∀ e ∈ assetAttributesEntries, e.2.Nodup := by decide

theorem entry_paths_div : ∀ e ∈ assetAttributesEntries, ∀ p ∈ e.2, ∀ r ∈ e.2,
    r ≠ p → pathDiverges (splitPath r) (splitPath p) = true := by decide

theorem cross_entry_div : ∀ e ∈ assetAttributesEntries, ∀ p ∈ allAssetPaths,
    p ∉ e.2 → ∀ r ∈ e.2, pathDiverges (splitPath r) (splitPath p) = true := by decide

theorem allPaths_shape : ∀ p ∈ allAssetPaths,
    (splitPath p).head? = some "asset" ∧ 2 ≤ (splitPath p).length := by decide

theorem allPaths_split : ∀ p ∈ allAssetPaths,
    ∃ k rest, splitPath p = "asset" :: k :: rest := by
  intro p hp
  obtain ⟨hh, hl⟩ := allPaths_shape p hp
  match hsp : splitPath p with
  | [] => rw [hsp] at hh; simp at hh
  | [a] => rw [hsp] at hl; simp at hl
  | a :: b :: rest =>
    rw [hsp] at hh
    simp only [List.head?_cons, Option.some.injEq] at hh
    exact ⟨b, rest, by rw [hh]⟩

theorem allPaths_div_single (p : String) (k : String)
    (hp : p ∈ allAssetPaths) (hk : k ≠ "asset") :
    pathDiverges (splitPath p) [k] = true := by
  obtain ⟨k2, rest, hsp⟩ := allPaths_split p hp
  rw [hsp]
  simp only [pathDiverges, Bool.or_eq_true, bne_iff_ne, ne_eq]
  exact Or.inl (fun hh => hk hh.symm)

theorem attrs_sub_allPaths (t : JVal) : ∀ p ∈ assetAttributesFor t, p ∈ allAssetPaths := by
  rcases assetAttributesFor_cases t with h | h
  · rw [h]; intro p hp; simp at hp
  · exact entry_paths_sub _ h

theorem attrs_nodup (t : JVal) : (assetAttributesFor t).Nodup := by
  rcases assetAttributesFor_cases t with h | h
  · rw [h]; exact List.nodup_nil
  · exact entry_paths_nodup _ h

theorem attrs_div (t : JVal) : ∀ p ∈ assetAttributesFor t, ∀ r ∈ assetAttributesFor t,
    r ≠ p → pathDiverges (splitPath r) (splitPath p) = true := by
  rcases assetAttributesFor_cases t with h | h
  · rw [h]; intro p hp; simp at hp
  · exact entry_paths_div _ h

theorem attrs_cross_div (t : JVal) : ∀ p ∈ allAssetPaths, p ∉ assetAttributesFor t →
    ∀ r ∈ assetAttributesFor t, pathDiverges (splitPath r) (splitPath p) = true := by
  rcases assetAttributesFor_cases t with h | h
  · rw [h]; intro p _ _ r hr; simp at hr
  · exact cross_entry_div _ h

/-! ### Lemmas about the materializer stages -/

theorem transactionWithAssetVal_eq (row : JObj) (ext : Bool) :
    transactionWithAssetVal row ext =
      (assetAttributesFor (objGet (transactionBase row ext) "type")).foldl
        (assetStep row) (.obj (transactionBase row ext)) := rfl

theorem transactionWithAssetVal_obj (row : JObj) (ext : Bool) :
    transactionWithAssetVal row ext = .obj (transactionWithAsset row ext) := by
  obtain ⟨o2, h⟩ := assetFold_obj
    (assetAttributesFor (objGet (transactionBase row ext) "type")) row
    (transactionBase row ext)
  rw [transactionWithAsset, transactionWithAssetVal_eq, h]

theorem type_payload_free : inPayloadNamespace "type" = false := by decide

theorem transactionBase_type (row : JObj) (ext : Bool)
    (hnd : (row.map Prod.fst).Nodup) :
    objGet (transactionBase row ext) "type" = objGet row "type" :=
  transactionBase_objGet row ext "type" hnd type_payload_free

theorem transactionWithAsset_objGet (row : JObj) (ext : Bool) (k : String)
    (hnd : (row.map Prod.fst).Nodup) (hk : inPayloadNamespace k = false) :
    objGet (transactionWithAsset row ext) k = objGet row k := by
  have hka : k ≠ "asset" := (inPayloadNamespace_false hk).2
  have h1 : getPath (.obj (transactionWithAsset row ext)) [k] = objGet (transactionWithAsset row ext) k :=
    getPath_single _ k
  rw [← h1, ← transactionWithAssetVal_obj, transactionWithAssetVal_eq]
  rw [assetFold_preserve _ row _ [k] ?hdivs]
  case hdivs =>
    intro p hp
    exact Or.inl (allPaths_div_single p k
      (attrs_sub_allPaths (objGet (transactionBase row ext) "type") p hp) hka)
  rw [getPath_single]
  exact transactionBase_objGet row ext k hnd hk

theorem splitPath_attr_ne_nil {p : String} (hp : p ∈ allAssetPaths) : splitPath p ≠ [] := by
  obtain ⟨k, rest, h⟩ := allPaths_split p hp
  rw [h]
  simp

theorem transactionWithAsset_getPath_set (row : JObj) (ext : Bool) (p : String)
    (hnd : (row.map Prod.fst).Nodup)
    (hmem : p ∈ assetAttributesFor (objGet row "type"))
    (h1 : objGet row p ≠ .null) (h2 : objGet row p ≠ .undefined) :
    getPath (.obj (transactionWithAsset row ext)) (splitPath p) = objGet row p := by
  rw [← transactionWithAssetVal_obj, transactionWithAssetVal_eq,
     transactionBase_type row ext hnd]
  exact assetFold_get _ row _ p hmem (attrs_nodup _) (attrs_div _ p hmem)
    (splitPath_attr_ne_nil (attrs_sub_allPaths _ p hmem)) h1 h2

theorem transactionWithAsset_getPath_undef (row : JObj) (ext : Bool) (p : String)
    (hnd : (row.map Prod.fst).Nodup) (hna : "asset" ∉ row.map Prod.fst)
    (hp : p ∈ allAssetPaths)
    (h : ∀ r ∈ assetAttributesFor (objGet row "type"),
      pathDiverges (splitPath r) (splitPath p) = true ∨
        objGet row r = .null ∨ objGet row r = .undefined) :
    getPath (.obj (transactionWithAsset row ext)) (splitPath p) = .undefined := by
  rw [← transactionWithAssetVal_obj, transactionWithAssetVal_eq]
  rw [assetFold_preserve _ row _ (splitPath p) ?hdivs]
  case hdivs =>
    rw [transactionBase_type row ext hnd]
    exact h
  obtain ⟨k2, rest, hsp⟩ := allPaths_split p hp
  rw [hsp]
  show getPath (objField (.obj (transactionBase row ext)) "asset") (k2 :: rest) = .undefined
  have hb := transactionBase_lookup_asset row ext hna
  simp only [objField, objGet, hb]
  cases ext
  · simp only [Bool.false_eq_true, if_false]
    exact getPath_undef _
  · rw [if_pos rfl]
    show getPath (objGet ([] : JObj) k2) rest = .undefined
    simp only [objGet, List.lookup_nil]
    exact getPath_undef _

theorem transactionWithAsset_asset_of_no_attrs (row : JObj) (ext : Bool)
    (hnd : (row.map Prod.fst).Nodup) (hna : "asset" ∉ row.map Prod.fst)
    (h : assetAttributesFor (objGet row "type") = []) :
    (transactionWithAsset row ext).lookup "asset" =
      (if ext then some (.obj ([] : JObj)) else none) := by
  have hval : transactionWithAssetVal row ext = .obj (transactionBase row ext) := by
    rw [transactionWithAssetVal_eq, transactionBase_type row ext hnd, h]
    rfl
  have := transactionWithAssetVal_obj row ext
  rw [hval] at this
  rw [← JVal.obj.inj this]
  exact transactionBase_lookup_asset row ext hna

theorem applyTransferDecode_of_type_ne (decode : List UInt8 → Option String)
    (t : JObj) (h : objGet t "type" ≠ .num 0) :
    applyTransferDecode decode t = t := by
  unfold applyTransferDecode
  rw [if_neg h]

theorem setIn_asset_data (t : JObj) (s : JVal) :
    ∃ x, setIn (.obj t) ["asset", "data"] s = .obj (objSet t "asset" x) := by
  refine ⟨setIn (match objGet t "asset" with
    | .obj c => .obj c
    | _ => .obj ([] : JObj)) ["data"] s, ?_⟩
  rfl

theorem applyTransferDecode_objGet_ne (decode : List UInt8 → Option String)
    (t : JObj) (k : String) (hk : k ≠ "asset") :
    objGet (applyTransferDecode decode t) k = objGet t k := by
  unfold applyTransferDecode
  by_cases ht : objGet t "type" = .num 0
  · rw [if_pos ht]
    by_cases hg : truthy (objGet t "asset") && truthy (objField (objGet t "asset") "data")
    · simp only [hg, if_true]
      cases hts : toStringUtf8 decode (objField (objGet t "asset") "data") with
      | some s =>
        obtain ⟨x, hx⟩ := setIn_asset_data t s
        simp only [hx]
        exact objGet_objSet_ne t "asset" k x hk
      | none =>
        exact objGet_objDelete_ne t "asset" k hk
    · simp only [hg, Bool.false_eq_true, if_false]
  · rw [if_neg ht]

theorem applyTransferDecode_lookup_ne (decode : List UInt8 → Option String)
    (t : JObj) (k : String) (hk : k ≠ "asset") :
    (applyTransferDecode decode t).lookup k = t.lookup k := by
  unfold applyTransferDecode
  by_cases ht : objGet t "type" = .num 0
  · rw [if_pos ht]
    by_cases hg : truthy (objGet t "asset") && truthy (objField (objGet t "asset") "data")
    · simp only [hg, if_true]
      cases hts : toStringUtf8 decode (objField (objGet t "asset") "data") with
      | some s =>
        obtain ⟨x, hx⟩ := setIn_asset_data t s
        simp only [hx]
        exact lookup_objSet_ne t "asset" k x hk
      | none =>
        exact lookup_objDelete_ne t "asset" k hk
    · simp only [hg, Bool.false_eq_true, if_false]
  · rw [if_neg ht]

theorem applySignaturesFilter_arr (t : JObj) (xs : List JVal)
    (h : objGet t "signatures" = .arr xs) :
    applySignaturesFilter t = some (objSet t "signatures" (.arr (xs.filter truthy))) := by
  unfold applySignaturesFilter
  rw [h]

theorem applySignaturesFilter_falsy (t : JObj)
    (h : truthy (objGet t "signatures") = false) :
    applySignaturesFilter t = some t := by
  unfold applySignaturesFilter
  cases hs : objGet t "signatures" <;> rw [hs] at h <;> simp_all [truthy]

theorem applySignaturesFilter_cases (t out : JObj)
    (h : applySignaturesFilter t = some out) :
    (∃ xs, objGet t "signatures" = .arr xs ∧
       out = objSet t "signatures" (.arr (xs.filter truthy))) ∨
    (truthy (objGet t "signatures") = false ∧ out = t) := by
  unfold applySignaturesFilter at h
  cases hs : objGet t "signatures" <;> rw [hs] at h
  case arr xs =>
    cases h
    exact Or.inl ⟨xs, rfl, rfl⟩
  case null =>
    change (if truthy JVal.null = true then none else some t) = some out at h
    rw [if_neg (by decide)] at h
    cases h
    exact Or.inr ⟨rfl, rfl⟩
  case undefined =>
    change (if truthy JVal.undefined = true then none else some t) = some out at h
    rw [if_neg (by decide)] at h
    cases h
    exact Or.inr ⟨rfl, rfl⟩
  case bool b =>
    change (if truthy (JVal.bool b) = true then none else some t) = some out at h
    cases b
    · rw [if_neg (by decide)] at h
      cases h
      exact Or.inr ⟨rfl, rfl⟩
    · rw [if_pos (by decide)] at h
      exact absurd h (by simp)
  case num n =>
    change (if truthy (JVal.num n) = true then none else some t) = some out at h
    by_cases hn : n = 0
    · subst hn
      rw [if_neg (by decide)] at h
      cases h
      exact Or.inr ⟨rfl, rfl⟩
    · rw [if_pos (by simp [truthy, hn])] at h
      exact absurd h (by simp)
  case str s =>
    change (if truthy (JVal.str s) = true then none else some t) = some out at h
    by_cases hstr : s = ""
    · subst hstr
      rw [if_neg (by decide)] at h
      cases h
      exact Or.inr ⟨rfl, rfl⟩
    · rw [if_pos (by simp [truthy, hstr])] at h
      exact absurd h (by simp)
  case buf bs =>
    change (if truthy (JVal.buf bs) = true then none else some t) = some out at h
    rw [if_pos (show truthy (JVal.buf bs) = true from rfl)] at h
    exact absurd h (by simp)
  case obj o =>
    change (if truthy (JVal.obj o) = true then none else some t) = some out at h
    rw [if_pos (show truthy (JVal.obj o) = true from rfl)] at h
    exact absurd h (by simp)

theorem applySignaturesFilter_objGet_ne (t out : JObj) (k : String)
    (hk : k ≠ "signatures") (h : applySignaturesFilter t = some out) :
    objGet out k = objGet t k := by
  rcases applySignaturesFilter_cases t out h with ⟨xs, _, hout⟩ | ⟨_, hout⟩
  · rw [hout]
    exact objGet_objSet_ne t "signatures" k _ hk
  · rw [hout]

theorem applySignaturesFilter_lookup_ne (t out : JObj) (k : String)
    (hk : k ≠ "signatures") (h : applySignaturesFilter t = some out) :
    out.lookup k = t.lookup k := by
  rcases applySignaturesFilter_cases t out h with ⟨xs, _, hout⟩ | ⟨_, hout⟩
  · rw [hout]
    exact lookup_objSet_ne t "signatures" k _ hk
  · rw [hout]

theorem lookup_of_mem_nodup : ∀ (l : JObj) (k : String) (v : JVal),
    (l.map Prod.fst).Nodup → (k, v) ∈ l → l.lookup k = some v := by
  intro l
  induction l with
  | nil => intro k v _ h; simp at h
  | cons p tl ih =>
    intro k v hnd hmem
    obtain ⟨a, b⟩ := p
    have hnd1 : (a :: tl.map Prod.fst).Nodup := by simpa only [List.map_cons] using hnd
    have hnd2 := List.nodup_cons.mp hnd1
    rcases List.mem_cons.mp hmem with heq | htl
    · cases heq
      exact lookup_cons_same k k (by simp)
    · have hk : k ≠ a := by
        intro hh
        exact hnd2.1 (hh ▸ List.mem_map.mpr ⟨(k, v), htl, rfl⟩)
      rw [lookup_cons_diff a k (by simp [hk])]
      exact ih k v hnd2.2 htl

theorem objGet_of_mem_nodup (l : JObj) (k : String) (v : JVal)
    (hnd : (l.map Prod.fst).Nodup) (hmem : (k, v) ∈ l) : objGet l k = v := by
  simp [objGet, lookup_of_mem_nodup l k v hnd hmem]

/-! ### The claims -/

/-- C1: for every raw row, the copy phases of the materializer copy into the
output payload only the dotted payload paths registered in the static
attribute map for the row's type discriminant, skipping a path exactly when
its raw value is null or absent (other falsy values are copied); paths
registered for other discriminants are never copied even when physically
non-null in the row; and every column outside the payload namespace is copied
directly into the output under its own key. -/
theorem c1_materializer_copies_registered_paths (row : JObj) (extended : Bool)
    (hnd : (row.map Prod.fst).Nodup) (hna : "asset" ∉ row.map Prod.fst) :
    (∀ k v, (k, v) ∈ row → inPayloadNamespace k = false →
       objGet (transactionWithAsset row extended) k = v) ∧
    (∀ p ∈ assetAttributesFor (objGet row "type"),
       objGet row p ≠ .null → objGet row p ≠ .undefined →
       getPath (.obj (transactionWithAsset row extended)) (splitPath p) = objGet row p) ∧
    (∀ p ∈ assetAttributesFor (objGet row "type"),
       objGet row p = .null ∨ objGet row p = .undefined →
       getPath (.obj (transactionWithAsset row extended)) (splitPath p) = .undefined) ∧
    (∀ p ∈ allAssetPaths, p ∉ assetAttributesFor (objGet row "type") →
       getPath (.obj (transactionWithAsset row extended)) (splitPath p) = .undefined) := by
  refine ⟨?_, ?_, ?_, ?_⟩
  · intro k v hmem hk
    rw [transactionWithAsset_objGet row extended k hnd hk]
    exact objGet_of_mem_nodup row k v hnd hmem
  · intro p hp h1 h2
    exact transactionWithAsset_getPath_set row extended p hnd hp h1 h2
  · intro p hp hskip
    refine transactionWithAsset_getPath_undef row extended p hnd hna
      (attrs_sub_allPaths _ p hp) ?_
    intro r hr
    by_cases hrp : r = p
    · subst hrp
      exact Or.inr hskip
    · exact Or.inl (attrs_div _ p hp r hr hrp)
  · intro p hp hnotin
    refine transactionWithAsset_getPath_undef row extended p hnd hna hp ?_
    intro r hr
    exact Or.inl (attrs_cross_div _ p hp hnotin r hr)

/-- Concrete row used by the C1 witness: a multisignature registration row
(type 4) whose `lifetime` column is null and which physically carries a
non-null column registered for a different discriminant. -/
def c1Row : JObj :=
  [("type", .num 4), ("id", .str "x"),
   ("asset.multisignature.min", .num 2),
   ("asset.multisignature.lifetime", .null),
   ("asset.dapp.name", .str "other")]

theorem c1_witness :
    objGet (transactionWithAsset c1Row false) "id" = .str "x" ∧
    getPath (.obj (transactionWithAsset c1Row false))
      (splitPath "asset.multisignature.min") = .num 2 ∧
    getPath (.obj (transactionWithAsset c1Row false))
      (splitPath "asset.multisignature.lifetime") = .undefined ∧
    getPath (.obj (transactionWithAsset c1Row false))
      (splitPath "asset.dapp.name") = .undefined := by
  have h := c1_materializer_copies_registered_paths c1Row false (by decide) (by decide)
  exact ⟨h.1 "id" (.str "x") (by decide) (by decide),
    h.2.1 "asset.multisignature.min" (by decide) (by decide) (by decide),
    h.2.2.1 "asset.multisignature.lifetime" (by decide) (Or.inl (by decide)),
    h.2.2.2 "asset.dapp.name" (by decide) (by decide)⟩

/-- C9: for every materialized record whose signatures field holds an array,
every falsy entry (empty string, null, and the other falsy values) is removed
from the sequence before the record is returned, preserving the order of the
remaining entries, and materialization succeeds. -/
theorem c9_signatures_falsy_dropped (row : JObj) (extended : Bool)
    (decode : List UInt8 → Option String) (xs : List JVal)
    (hnd : (row.map Prod.fst).Nodup)
    (hsig : ("signatures", .arr xs) ∈ row) :
    ∃ out, formatTransactionResult decode row extended = some out ∧
      objGet out "signatures" = .arr (xs.filter truthy) := by
  have hrow : objGet row "signatures" = .arr xs :=
    objGet_of_mem_nodup row "signatures" (.arr xs) hnd hsig
  have ht2 : objGet (transactionWithAsset row extended) "signatures" = .arr xs := by
    rw [transactionWithAsset_objGet row extended "signatures" hnd (by decide)]
    exact hrow
  have ht3 : objGet (applyTransferDecode decode (transactionWithAsset row extended))
      "signatures" = .arr xs := by
    rw [applyTransferDecode_objGet_ne decode _ "signatures" (by decide)]
    exact ht2
  refine ⟨_, applySignaturesFilter_arr _ xs ht3, ?_⟩
  exact objGet_objSet_self _ "signatures" _

/-- Concrete row used by the C9 witness, with the signature slots of the
specification's example. -/
def c9Row : JObj :=
  [("type", .num 1),
   ("signatures", .arr [.str "sigA", .str "", .null, .str "sigB"])]

theorem c9_witness :
    ∃ out, formatTransactionResult (fun _ => none) c9Row false = some out ∧
      objGet out "signatures" = .arr [.str "sigA", .str "sigB"] := by
  obtain ⟨out, h1, h2⟩ := c9_signatures_falsy_dropped c9Row false (fun _ => none)
    [.str "sigA", .str "", .null, .str "sigB"] (by decide) (by decide)
  refine ⟨out, h1, ?_⟩
  rw [h2]
  decide

/-- C10: a raw row whose type discriminant keys no entry of the static asset
attribute map still materializes without error: no payload path is copied at
all, non-payload columns are copied as usual, and in extended mode the output
still carries the pre-seeded empty asset container.  (The signatures column
is assumed to hold an array or a falsy value, as storage rows do; a truthy
non-array signatures value would crash the final filter step for every
discriminant alike.) -/
theorem c10_unknown_discriminant_safe (row : JObj) (extended : Bool)
    (decode : List UInt8 → Option String)
    (hnd : (row.map Prod.fst).Nodup) (hna : "asset" ∉ row.map Prod.fst)
    (hattrs : assetAttributesFor (objGet row "type") = [])
    (hsig : truthy (objGet row "signatures") = false ∨
      ∃ xs, objGet row "signatures" = .arr xs) :
    ∃ out, formatTransactionResult decode row extended = some out ∧
      (∀ k v, (k, v) ∈ row → inPayloadNamespace k = false → k ≠ "signatures" →
        objGet out k = v) ∧
      (extended = true → objGet out "asset" = .obj ([] : JObj)) ∧
      (∀ p ∈ allAssetPaths, getPath (.obj out) (splitPath p) = .undefined) := by
  have htype : objGet row "type" ≠ .num 0 := by
    intro h
    rw [h] at hattrs
    exact absurd hattrs (by decide)
  have ht2type : objGet (transactionWithAsset row extended) "type" = objGet row "type" :=
    transactionWithAsset_objGet row extended "type" hnd (by decide)
  have ht3 : applyTransferDecode decode (transactionWithAsset row extended) =
      transactionWithAsset row extended :=
    applyTransferDecode_of_type_ne decode _ (by rw [ht2type]; exact htype)
  have ht2sig : objGet (transactionWithAsset row extended) "signatures" =
      objGet row "signatures" :=
    transactionWithAsset_objGet row extended "signatures" hnd (by decide)
  have hassetl := transactionWithAsset_asset_of_no_attrs row extended hnd hna hattrs
  have hasset : objGet (transactionWithAsset row extended) "asset" =
      (if extended then .obj ([] : JObj) else .undefined) := by
    cases extended
    · rw [if_neg (by simp)] at hassetl ⊢
      simp [objGet, hassetl]
    · rw [if_pos rfl] at hassetl ⊢
      simp [objGet, hassetl]
  obtain ⟨out, hout, houtk⟩ : ∃ out,
      applySignaturesFilter (transactionWithAsset row extended) = some out ∧
      ∀ k, k ≠ "signatures" →
        objGet out k = objGet (transactionWithAsset row extended) k := by
    rcases hsig with hf | ⟨xs, hxs⟩
    · exact ⟨_, applySignaturesFilter_falsy _ (ht2sig.symm ▸ hf), fun k _ => rfl⟩
    · exact ⟨_, applySignaturesFilter_arr _ xs (ht2sig.trans hxs),
        fun k hk => objGet_objSet_ne _ _ k _ hk⟩
  refine ⟨out, by rw [formatTransactionResult, ht3]; exact hout, ?_, ?_, ?_⟩
  · intro k v hmem hk hks
    rw [houtk k hks]
    rw [transactionWithAsset_objGet row extended k hnd hk]
    exact objGet_of_mem_nodup row k v hnd hmem
  · intro hext
    rw [houtk "asset" (by decide), hasset, hext, if_pos rfl]
  · intro p hp
    obtain ⟨k2, rest, hsp⟩ := allPaths_split p hp
    rw [hsp]
    show getPath (objField (.obj out) "asset") (k2 :: rest) = .undefined
    rw [show objField (.obj out) "asset" = objGet out "asset" from rfl]
    rw [houtk "asset" (by decide), hasset]
    cases extended
    · rw [if_neg (by simp)]
      exact getPath_undef _
    · rw [if_pos rfl]
      show getPath (objGet ([] : JObj) k2) rest = .undefined
      simp only [objGet, List.lookup_nil]
      exact getPath_undef _

/-- Concrete row used by the C10 witness: discriminant 99 is not a key of the
asset attribute map, yet its physically present payload column is dropped and
the extended asset container stays empty. -/
def c10Row : JObj :=
  [("type", .num 99), ("id", .str "x"), ("asset.data", .buf [1, 2])]

theorem c10_witness :
    ∃ out, formatTransactionResult (fun _ => none) c10Row true = some out ∧
      (∀ k v, (k, v) ∈ c10Row → inPayloadNamespace k = false → k ≠ "signatures" →
        objGet out k = v) ∧
      (true = true → objGet out "asset" = .obj ([] : JObj)) ∧
      (∀ p ∈ allAssetPaths, getPath (.obj out) (splitPath p) = .undefined) :=
  c10_unknown_discriminant_safe c10Row true (fun _ => none)
    (by decide) (by decide) (by decide) (Or.inl (by decide))

theorem exists_obj_of_objField_ne_undef {v : JVal} {k : String}
    (h : objField v k ≠ .undefined) : ∃ o : JObj, v = .obj o := by
  cases v <;> first | exact ⟨_, rfl⟩ | exact absurd rfl h

/-- C4: a row with discriminant 0 whose payload data bytes fail text decoding
materializes to a record with no asset key at all, and no error is raised;
moreover the decode is only attempted for discriminant 0: for any other
discriminant the materializer's result does not depend on the decoder at
all.  (The signatures column is assumed to hold an array or a falsy value,
as storage rows do.) -/
theorem c4_decode_failure_drops_asset :
    (∀ (row : JObj) (extended : Bool) (decode : List UInt8 → Option String)
       (bs : List UInt8),
      (row.map Prod.fst).Nodup → "asset" ∉ row.map Prod.fst →
      ("type", .num 0) ∈ row → ("asset.data", .buf bs) ∈ row →
      decode bs = none →
      (truthy (objGet row "signatures") = false ∨
        ∃ xs, objGet row "signatures" = .arr xs) →
      ∃ out, formatTransactionResult decode row extended = some out ∧
        out.lookup "asset" = none) ∧
    (∀ (row : JObj) (extended : Bool) (d1 d2 : List UInt8 → Option String),
      (row.map Prod.fst).Nodup → objGet row "type" ≠ .num 0 →
      formatTransactionResult d1 row extended =
        formatTransactionResult d2 row extended) := by
  constructor
  · intro row extended decode bs hnd hna htype hdata hdec hsig
    have hrowtype : objGet row "type" = .num 0 :=
      objGet_of_mem_nodup row "type" (.num 0) hnd htype
    have hrowdata : objGet row "asset.data" = .buf bs :=
      objGet_of_mem_nodup row "asset.data" (.buf bs) hnd hdata
    have ht2type : objGet (transactionWithAsset row extended) "type" = .num 0 := by
      rw [transactionWithAsset_objGet row extended "type" hnd (by decide)]
      exact hrowtype
    have hmem : "asset.data" ∈ assetAttributesFor (objGet row "type") := by
      rw [hrowtype]
      decide
    have hpath : getPath (.obj (transactionWithAsset row extended))
        (splitPath "asset.data") = .buf bs := by
      rw [transactionWithAsset_getPath_set row extended "asset.data" hnd hmem
        (by rw [hrowdata]; intro h; exact JVal.noConfusion h)
        (by rw [hrowdata]; intro h; exact JVal.noConfusion h)]
      exact hrowdata
    have hdat : objField (objGet (transactionWithAsset row extended) "asset") "data" =
        .buf bs := by
      have : splitPath "asset.data" = ["asset", "data"] := by decide
      rw [this] at hpath
      exact hpath
    obtain ⟨ao, hao⟩ := exists_obj_of_objField_ne_undef
      (k := "data") (by rw [hdat]; intro h; exact JVal.noConfusion h)
    have hdrop : applyTransferDecode decode (transactionWithAsset row extended) =
        objDelete (transactionWithAsset row extended) "asset" := by
      unfold applyTransferDecode
      rw [if_pos ht2type]
      show (if truthy (objGet (transactionWithAsset row extended) "asset") &&
          truthy (objField (objGet (transactionWithAsset row extended) "asset") "data")
        then _ else _) = _
      rw [if_pos (by rw [hdat, hao]; rfl)]
      rw [hdat]
      show (match toStringUtf8 decode (.buf bs) with
        | some s =>
          match setIn (.obj (transactionWithAsset row extended)) ["asset", "data"] s with
          | .obj o => o
          | _ => transactionWithAsset row extended
        | none => objDelete (transactionWithAsset row extended) "asset") = _
      rw [show toStringUtf8 decode (.buf bs) = (decode bs).map JVal.str from rfl, hdec]
      rfl
    have ht3sig : objGet (applyTransferDecode decode (transactionWithAsset row extended))
        "signatures" = objGet row "signatures" := by
      rw [hdrop, objGet_objDelete_ne _ "asset" "signatures" (by decide)]
      exact transactionWithAsset_objGet row extended "signatures" hnd (by decide)
    obtain ⟨out, hout, houtl⟩ : ∃ out,
        applySignaturesFilter
          (applyTransferDecode decode (transactionWithAsset row extended)) = some out ∧
        out.lookup "asset" =
          (applyTransferDecode decode (transactionWithAsset row extended)).lookup
            "asset" := by
      rcases hsig with hf | ⟨xs, hxs⟩
      · exact ⟨_, applySignaturesFilter_falsy _ (ht3sig.symm ▸ hf), rfl⟩
      · exact ⟨_, applySignaturesFilter_arr _ xs (ht3sig.trans hxs),
          lookup_objSet_ne _ "signatures" "asset" _ (by decide)⟩
    refine ⟨out, hout, ?_⟩
    rw [houtl, hdrop]
    exact lookup_objDelete_self _ "asset"
  · intro row extended d1 d2 hnd htype
    have ht2type : objGet (transactionWithAsset row extended) "type" ≠ .num 0 := by
      rw [transactionWithAsset_objGet row extended "type" hnd (by decide)]
      exact htype
    unfold formatTransactionResult
    rw [applyTransferDecode_of_type_ne d1 _ ht2type,
       applyTransferDecode_of_type_ne d2 _ ht2type]

/-- Concrete row used by the C4 witness: a transfer row whose data bytes the
decoder rejects. -/
def c4Row : JObj :=
  [("type", .num 0), ("id", .str "x"), ("asset.data", .buf [255, 255])]

theorem c4_witness :
    (∃ out, formatTransactionResult (fun _ => none) c4Row true = some out ∧
       out.lookup "asset" = none) ∧
    formatTransactionResult (fun _ => none)
        [("type", .num 3)] false =
      formatTransactionResult (fun _ => some "hi") [("type", .num 3)] false := by
  constructor
  · exact (c4_decode_failure_drops_asset.1 c4Row true (fun _ => none) [255, 255]
      (by decide) (by decide) (by decide) (by decide) rfl (Or.inl (by decide)))
  · exact c4_decode_failure_drops_asset.2 [("type", .num 3)] false
      (fun _ => none) (fun _ => some "hi") (by decide) (by decide)

/-! ### Filter sanitization (`_sanitizeFilters`, lines 494-510) -/

/-- Standard UTF-8 encoding of one character. -/
def charUtf8 (c : Char) : List UInt8 :=
  let n := c.toNat
  if n < 0x80 then [UInt8.ofNat n]
  else if n < 0x800 then
    [UInt8.ofNat (0xC0 + n / 0x40), UInt8.ofNat (0x80 + n % 0x40)]
  else if n < 0x10000 then
    [UInt8.ofNat (0xE0 + n / 0x1000),
     UInt8.ofNat (0x80 + n / 0x40 % 0x40),
     UInt8.ofNat (0x80 + n % 0x40)]
  else
    [UInt8.ofNat (0xF0 + n / 0x40000),
     UInt8.ofNat (0x80 + n / 0x1000 % 0x40),
     UInt8.ofNat (0x80 + n / 0x40 % 0x40),
     UInt8.ofNat (0x80 + n % 0x40)]

/-- UTF-8 bytes of a string, as `Buffer.from(s, 'utf8')` produces. -/
def utf8Encode (s : String) : List UInt8 :=
  (s.data.map charUtf8).flatten

/-- Embeds `Buffer.from(value, 'utf8')` (line 497) for the value kinds that
reach it: a string is utf8-encoded, an existing buffer is copied byte for
byte.  Other kinds either throw a TypeError or are deprecated number
conversions in Node; they are left untouched here, which no theorem depends
on because the public filter API carries `data_like` as a string. -/
def bufferFromUtf8 : JVal → JVal
  | .str s => .buf (utf8Encode s)
  | .buf bs => .buf bs
  | v => v

/-- Embeds `sanitizeFilterObject` (lines 495-500).  The JS function assigns
`filterObject.data_like = Buffer.from(...)` on the caller's own object and
returns the same reference, so this pure embedding returns the state the
caller's filter object is left in after the call. -/
def sanitizeFilterObject (f : JObj) : JObj :=
  if truthy (objGet f "data_like") then
    objSet f "data_like" (bufferFromUtf8 (objGet f "data_like"))
  else f

/-- Embeds the array branch of `_sanitizeFilters` (lines 503-507): the map
builds a fresh array, but each element is the caller's own (possibly
mutated) filter object. -/
def sanitizeFiltersArray (fs : List JObj) : List JObj :=
  fs.map sanitizeFilterObject

/-- C5 counterexample: the claim that a caller-supplied filter object with a
`data_like` entry is left unchanged is false — `_sanitizeFilters` replaces
the entry's value with its Buffer encoding on the caller's own object. -/
theorem c5_counterexample :
    sanitizeFilterObject [("data_like", .str "abc")] ≠ [("data_like", .str "abc")] := by
  decide

/-- C5 (amended): the compiler and materializer hold no mutable state, and a
caller's filter object without a truthy `data_like` entry is left unchanged
by sanitization (so get, getOne, count and isPersisted do not disturb it);
but a filter object whose `data_like` holds a nonempty string is mutated in
place, its `data_like` value replaced by the utf8 Buffer encoding — and the
same holds for every element of an OR-group array. -/
theorem c5_sanitize_mutation (f : JObj) :
    (truthy (objGet f "data_like") = false → sanitizeFilterObject f = f) ∧
    (∀ s : String, objGet f "data_like" = .str s → s ≠ "" →
       sanitizeFilterObject f = objSet f "data_like" (.buf (utf8Encode s))) ∧
    (∀ fs : List JObj, (∀ g ∈ fs, truthy (objGet g "data_like") = false) →
       sanitizeFiltersArray fs = fs) := by
  refine ⟨?_, ?_, ?_⟩
  · intro h
    unfold sanitizeFilterObject
    rw [if_neg (by simp [h])]
  · intro s hs hne
    unfold sanitizeFilterObject
    rw [hs]
    rw [if_pos (by simp [truthy, hne])]
    rfl
  · intro fs h
    unfold sanitizeFiltersArray
    induction fs with
    | nil => rfl
    | cons g tl ih =>
      rw [List.map_cons]
      rw [show sanitizeFilterObject g = g from by
        unfold sanitizeFilterObject
        rw [if_neg (by simp [h g (List.mem_cons_self _ _)])]]
      rw [ih (fun g2 hg2 => h g2 (List.mem_cons_of_mem _ hg2))]

theorem c5_witness :
    sanitizeFilterObject [("senderId", .str "L123")] = [("senderId", .str "L123")] ∧
    sanitizeFilterObject [("data_like", .str "ab")] =
      objSet [("data_like", .str "ab")] "data_like" (.buf (utf8Encode "ab")) :=
  ⟨(c5_sanitize_mutation [("senderId", .str "L123")]).1 (by decide),
   (c5_sanitize_mutation [("data_like", .str "ab")]).2.1 "ab" (by decide) (by decide)⟩

/-! ### Query layer: errors, statements, sort, cardinality -/

/-- Error conditions surfaced by the entity layer.  `nonSupportedOperation`
embeds `NonSupportedOperationError`, `validation` a filter-validation
failure, `cardinalityMismatch` the adapter's expected-result-count failure,
and `typeError` an uncaught JS TypeError. -/
inductive EntityError where
  | nonSupportedOperation
  | validation
  | cardinalityMismatch
  | typeError
  deriving Repr, DecidableEq

/-- The precompiled SQL statements of the `sqlFiles` map (lines 147-153). -/
inductive SqlFile where
  | select
  | selectExtended
  | isPersistedQuery
  | countQuery
  | countAllQuery
  deriving Repr, DecidableEq

/-- Embeds `Transaction.create` (lines 338-340): throws
`NonSupportedOperationError` unconditionally; the second component is the
sequence of SQL statements executed, which is empty. -/
def createTransaction (_data _options _tx : JVal) : Except EntityError JVal × List SqlFile :=
  (.error .nonSupportedOperation, [])

/-- Embeds `Transaction.update` (lines 349-351); the declared JS signature
takes no parameters and extra arguments are ignored, modelled by an
argument list. -/
def updateTransaction (_args : List JVal) : Except EntityError JVal × List SqlFile :=
  (.error .nonSupportedOperation, [])

/-- Embeds `Transaction.updateOne` (lines 360-362). -/
def updateOneTransaction (_args : List JVal) : Except EntityError JVal × List SqlFile :=
  (.error .nonSupportedOperation, [])

/-- Embeds `Transaction.delete` (lines 371-373). -/
def deleteTransaction (_args : List JVal) : Except EntityError JVal × List SqlFile :=
  (.error .nonSupportedOperation, [])

/-- C8: create, update, updateOne and delete raise an unsupported-operation
error for every input (including empty or undefined input), execute no SQL
statement, and hence leave no observable state change. -/
theorem c8_mutation_guard :
    (∀ data options tx : JVal,
       createTransaction data options tx = (.error .nonSupportedOperation, [])) ∧
    (∀ args : List JVal,
       updateTransaction args = (.error .nonSupportedOperation, [])) ∧
    (∀ args : List JVal,
       updateOneTransaction args = (.error .nonSupportedOperation, [])) ∧
    (∀ args : List JVal,
       deleteTransaction args = (.error .nonSupportedOperation, [])) :=
  ⟨fun _ _ _ => rfl, fun _ => rfl, fun _ => rfl, fun _ => rfl⟩

/-- The deterministic tiebreak sort key appended in `_getResults`
(lines 417 and 420). -/
def tiebreakSortKey : JVal := .str "t_rowId:asc"

/-- One level of lodash `_.flatten`: array elements are spliced in, other
values kept as they are. -/
def jsFlattenOne : JVal → List JVal
  | .arr xs => xs
  | v => [v]

/-- Embeds lines 413-421 of `_getResults`: a truthy resolved sort is
flattened together with the tiebreak key and cleaned of falsy entries with
`.filter(Boolean)`; a falsy one is replaced by the tiebreak key alone.  The
result is the sort list handed to `parseSort` and thence to the adapter. -/
def resolveSort (sortOption : JVal) : List JVal :=
  if truthy sortOption then
    (jsFlattenOne sortOption ++ jsFlattenOne tiebreakSortKey).filter truthy
  else [tiebreakSortKey]

/-- Modelled from the spec: `_.defaults({}, _.pick(options, ...),
_.pick(this.defaultOptions, ...))` (lines 407-411) resolves the effective
sort to the caller's value when the caller supplied one, and otherwise to
`BaseEntity`'s default options, which carry no sort ("append deterministic
tiebreak if caller-specified sort is present, else use tiebreak alone",
§4.3); `BaseEntity` is not part of the source under verification. -/
def defaultSortOption : JVal := .undefined

/-- The sort option `_.defaults` leaves in `parsedOptions.sort`: the caller's
value when present, the (absent) default otherwise. -/
def effectiveSortOption (callerSort : JVal) : JVal :=
  match callerSort with
  | .undefined => defaultSortOption
  | v => v

/-- C2: the effective sort passed to the storage adapter always ends with
the deterministic tiebreak key `t_rowId:asc`: with a truthy caller sort the
tiebreak key is appended after the (flattened, falsy-cleaned) caller sort,
and with no caller sort the tiebreak key alone is used. -/
theorem c2_sort_always_ends_with_tiebreak :
    (∀ s : JVal, (resolveSort (effectiveSortOption s)).getLast? = some tiebreakSortKey) ∧
    (∀ s : JVal, truthy s = true →
       resolveSort (effectiveSortOption s) =
         (jsFlattenOne s).filter truthy ++ [tiebreakSortKey]) ∧
    resolveSort (effectiveSortOption .undefined) = [tiebreakSortKey] := by
  have key : ∀ v : JVal, resolveSort v =
      (if truthy v then (jsFlattenOne v).filter truthy ++ [tiebreakSortKey]
       else [tiebreakSortKey]) := by
    intro v
    unfold resolveSort
    by_cases h : truthy v
    · rw [if_pos h, if_pos h]
      rw [show jsFlattenOne tiebreakSortKey = [tiebreakSortKey] from rfl]
      rw [List.filter_append]
      rw [show List.filter truthy [tiebreakSortKey] = [tiebreakSortKey] from rfl]
    · rw [if_neg h, if_neg h]
  have heff : ∀ s : JVal, effectiveSortOption s = s := by
    intro s
    cases s <;> rfl
  refine ⟨?_, ?_, ?_⟩
  · intro s
    rw [key]
    by_cases h : truthy (effectiveSortOption s)
    · rw [if_pos h]
      exact List.getLast?_concat _
    · rw [if_neg h]
      rfl
  · intro s h
    rw [heff s, key, if_pos h]
  · rfl

theorem c2_witness :
    resolveSort (effectiveSortOption (.str "amount:asc")) =
      [.str "amount:asc", tiebreakSortKey] ∧
    (resolveSort (effectiveSortOption (.arr [.str "amount:desc", .str "fee:asc"]))).getLast?
      = some tiebreakSortKey := by
  constructor
  · rw [c2_sort_always_ends_with_tiebreak.2.1 (.str "amount:asc") (by decide)]
    decide
  · exact c2_sort_always_ends_with_tiebreak.1 (.arr [.str "amount:desc", .str "fee:asc"])

/-- Modelled from the spec: the storage adapter's `executeFile` cardinality
contract (§6): with no expected result count the matched rows come back as a
sequence; with an expected count the call fails with a cardinality mismatch
unless exactly that many rows match.  The adapter is an external
collaborator, not part of the source under verification. -/
def adapterExecute (matched : List JObj) : Option Nat → Except EntityError (List JObj)
  | none => .ok matched
  | some n => if matched.length = n then .ok matched else .error .cardinalityMismatch

/-- Embeds `get` (lines 297-299) composed with the tail of `_getResults`
(lines 432-450): no cardinality expectation is declared
(`expectedResultCount` stays undefined), and every returned row is
materialized.  `matched` is the row set the select statement yields. -/
def transactionGet (decode : List UInt8 → Option String)
    (matched : List JObj) (extended : Bool) : Except EntityError (List JObj) :=
  match adapterExecute matched none with
  | .error e => .error e
  | .ok rows =>
    match rows.mapM (fun r => formatTransactionResult decode r extended) with
    | some outs => .ok outs
    | none => .error .typeError

/-- Embeds `getOne` (lines 280-283), which declares
`expectedResultCount = 1`, composed with the tail of `_getResults`: the
adapter enforces the expectation and the single row is materialized. -/
def transactionGetOne (decode : List UInt8 → Option String)
    (matched : List JObj) (extended : Bool) : Except EntityError JObj :=
  match adapterExecute matched (some 1) with
  | .error e => .error e
  | .ok rows =>
    match rows with
    | [r] =>
      match formatTransactionResult decode r extended with
      | some o => .ok o
      | none => .error .typeError
    | _ => .error .cardinalityMismatch

/-- C3: `get` resolves with an empty sequence when the query matches zero
rows and never errors on zero matches, while `getOne` declares an expected
cardinality of exactly one row and fails with a cardinality mismatch
whenever the query yields zero rows or two or more rows. -/
theorem c3_get_zero_ok_getOne_cardinality :
    (∀ (decode : List UInt8 → Option String) (extended : Bool),
       transactionGet decode [] extended = .ok []) ∧
    (∀ (decode : List UInt8 → Option String) (matched : List JObj) (extended : Bool),
       matched.length ≠ 1 →
       transactionGetOne decode matched extended = .error .cardinalityMismatch) := by
  constructor
  · intro decode extended
    rfl
  · intro decode matched extended h
    unfold transactionGetOne
    rw [show adapterExecute matched (some 1) =
      (if matched.length = 1 then .ok matched else .error .cardinalityMismatch) from rfl]
    rw [if_neg h]

theorem c3_witness :
    transactionGet (fun _ => none) [] false = .ok [] ∧
    transactionGetOne (fun _ => none) [] false = .error .cardinalityMismatch ∧
    transactionGetOne (fun _ => none)
      [[("id", .str "a")], [("id", .str "b")]] false = .error .cardinalityMismatch :=
  ⟨c3_get_zero_ok_getOne_cardinality.1 (fun _ => none) false,
   c3_get_zero_ok_getOne_cardinality.2 (fun _ => none) [] false (by decide),
   c3_get_zero_ok_getOne_cardinality.2 (fun _ => none)
     [[("id", .str "a")], [("id", .str "b")]] false (by decide)⟩

/-- Embeds line 322: the distinct count-all statement is chosen exactly when
the compiled predicate is the empty string. -/
def countStatementChoice (parsedFilters : String) : SqlFile :=
  if parsedFilters = "" then .countAllQuery else .countQuery

/-- Modelled from the spec: the count statements (SQL files outside this
source) each return exactly one row whose `count` field is the number of
rows they count — every row of the store for `count_all`, the rows matching
the compiled predicate for `count` (§6; exactness required by §4.3).
`pred` is the compiled predicate's semantics on one row.  The remaining
statement keys are not count statements and yield no rows here. -/
def runCountStatement (store : List JObj) (pred : JObj → Bool) : SqlFile → List JObj
  | .countAllQuery => [[("count", .num store.length)]]
  | .countQuery => [[("count", .num (store.filter pred).length)]]
  | _ => []

/-- Embeds the unary `+` coercion of line 326 for the value kinds a `count`
column can hold (a number, or null coercing to 0; booleans coerce to 0/1).
String parsing and the NaN cases cannot arise from a count row and are
collapsed to 0. -/
def jsToNumber : JVal → Int
  | .num n => n
  | .null => 0
  | .bool b => if b then 1 else 0
  | _ => 0

/-- Embeds `Transaction.count` (lines 310-327) over the modelled statements:
choose the count or count-all statement by whether the compiled predicate is
empty, execute it with an expected result count of one row, and resolve to
the numeric coercion of the row's `count` field. -/
def countTransaction (store : List JObj) (pred : JObj → Bool)
    (parsedFilters : String) : Except EntityError Int :=
  match adapterExecute (runCountStatement store pred (countStatementChoice parsedFilters))
      (some 1) with
  | .error e => .error e
  | .ok rows => .ok (jsToNumber (objGet (rows.headD []) "count"))

/-- The count-all pipeline on its own (the spec's `countAll`): the count-all
statement under the same one-row cardinality contract and coercion. -/
def countAllTransaction (store : List JObj) : Except EntityError Int :=
  match adapterExecute (runCountStatement store (fun _ => true) .countAllQuery) (some 1) with
  | .error e => .error e
  | .ok rows => .ok (jsToNumber (objGet (rows.headD []) "count"))

/-- Modelled from the spec: compiling an empty Filter Set yields an empty
predicate (§4.2, §8); the compiler (`parseFilters`) lives in `BaseEntity`,
outside this source. -/
def parsedFiltersOfEmptyFilterSet : String := ""

/-- C6: `count` selects the distinct count-all statement exactly when the
compiled predicate is the empty string and the ordinary count statement
otherwise, executes it expecting one result row, and resolves to the numeric
coercion of that row's count field — the full store size for the empty
predicate, the matching-row count otherwise; hence `count` on an empty
filter set equals `countAll` over every store state. -/
theorem c6_count_empty_predicate :
    (∀ parsedFilters : String,
       countStatementChoice parsedFilters = .countAllQuery ↔ parsedFilters = "") ∧
    (∀ (store : List JObj) (pred : JObj → Bool),
       countTransaction store pred "" = .ok (store.length : Int)) ∧
    (∀ (store : List JObj) (pred : JObj → Bool) (parsedFilters : String),
       parsedFilters ≠ "" →
       countTransaction store pred parsedFilters =
         .ok ((store.filter pred).length : Int)) ∧
    (∀ (store : List JObj) (pred : JObj → Bool),
       countTransaction store pred parsedFiltersOfEmptyFilterSet =
         countAllTransaction store) := by
  refine ⟨?_, ?_, ?_, ?_⟩
  · intro pf
    constructor
    · intro h
      by_cases hpf : pf = ""
      · exact hpf
      · rw [countStatementChoice, if_neg hpf] at h
        exact absurd h (by simp)
    · intro h
      rw [countStatementChoice, if_pos h]
  · intro store pred
    rw [countTransaction, countStatementChoice, if_pos rfl]
    rw [show runCountStatement store pred .countAllQuery =
      [[("count", .num store.length)]] from rfl]
    rfl
  · intro store pred pf h
    rw [countTransaction, countStatementChoice, if_neg h]
    rfl
  · intro store pred
    rw [countTransaction, parsedFiltersOfEmptyFilterSet, countStatementChoice, if_pos rfl]
    rfl

theorem c6_witness :
    (countStatementChoice "" = .countAllQuery ↔ "" = "") ∧
    countTransaction [[("id", .str "a")], [("id", .str "b")]] (fun _ => true) "" = .ok 2 ∧
    countTransaction [[("id", .str "a")], [("id", .str "b")]]
      (fun r => objGet r "id" = .str "a") "AND 1=1" = .ok 1 ∧
    countTransaction [[("id", .str "a")]] (fun _ => false) parsedFiltersOfEmptyFilterSet =
      countAllTransaction [[("id", .str "a")]] := by
  refine ⟨c6_count_empty_predicate.1 "", ?_, ?_, c6_count_empty_predicate.2.2.2 _ _⟩
  · exact c6_count_empty_predicate.2.1 [[("id", .str "a")], [("id", .str "b")]] (fun _ => true)
  · rw [c6_count_empty_predicate.2.2.1 [[("id", .str "a")], [("id", .str "b")]]
      (fun r => objGet r "id" = .str "a") "AND 1=1" (by decide)]
    rfl

/-- The operator suffixes the filter generator derives for a TEXT field.
Modelled from the spec (§3: TEXT is exact/pattern match); the generator
itself lives in `BaseEntity`, outside this source. -/
def textFilterSuffixes : List String := ["", "_eql", "_ne", "_in", "_like"]

/-- The operator suffixes for a NUMBER field (equality/range, §3). -/
def numberFilterSuffixes : List String :=
  ["", "_eql", "_ne", "_gt", "_gte", "_lt", "_lte", "_in"]

/-- The fields the Transaction constructor registers with a TEXT filter
(lines 173-230). -/
def transactionTextFields : List String :=
  ["id", "blockId", "senderPublicKey", "recipientPublicKey",
   "requesterPublicKey", "senderId", "recipientId"]

/-- The fields registered with a NUMBER filter (lines 181-238). -/
def transactionNumberFields : List String :=
  ["blockHeight", "type", "timestamp", "amount", "fee"]

/-- The CUSTOM filters registered in lines 253-263. -/
def transactionCustomFilters : List String := ["data_like", "dapp_name", "dapp_link"]

/-- Every filter key the Transaction entity recognizes. -/
def transactionFilterKeys : List String :=
  (transactionTextFields.map (fun f => textFilterSuffixes.map (fun s => f ++ s))).flatten
    ++ (transactionNumberFields.map
        (fun f => numberFilterSuffixes.map (fun s => f ++ s))).flatten
    ++ transactionCustomFilters

/-- Modelled from the spec: `validateFilters(filters, atLeastOneRequired)`
(§4.2, in `BaseEntity`, outside this source): reject when
`atLeastOneRequired` is set and the filter set is empty or contains no
recognized key, and when any key is unrecognized.  A filter set is a single
mapping or an OR-sequence of mappings; a single mapping is passed as a
one-element sequence. -/
def validateFilters (filters : List JObj) (atLeastOneRequired : Bool) : Bool :=
  let keys := (filters.map (fun f => f.map Prod.fst)).flatten
  (!atLeastOneRequired || keys.any (fun k => transactionFilterKeys.contains k))
    && keys.all (fun k => transactionFilterKeys.contains k)

/-- Embeds `isPersisted` (lines 383-397) over the modelled validation and
adapter: validation runs first with `atLeastOneRequired = true`, and only
when it passes is the isPersisted statement executed.  `pred` is the
compiled predicate's semantics; the second component records the statements
the adapter executed. -/
def isPersistedTransaction (store : List JObj) (pred : List JObj → JObj → Bool)
    (filters : List JObj) : Except EntityError Bool × List SqlFile :=
  if validateFilters filters true then
    (.ok (store.any (pred filters)), [.isPersistedQuery])
  else
    (.error .validation, [])

/-- C7: for every filter set containing no recognized filter key — the empty
filter set included — the existence check fails with a validation error
before the storage adapter is invoked: no statement is executed. -/
theorem c7_isPersisted_requires_filter (filters : List JObj) (store : List JObj)
    (pred : List JObj → JObj → Bool)
    (h : ∀ k ∈ (filters.map (fun f => f.map Prod.fst)).flatten,
      k ∉ transactionFilterKeys) :
    isPersistedTransaction store pred filters = (.error .validation, []) := by
  unfold isPersistedTransaction
  rw [if_neg ?hv]
  case hv =>
    intro hvalid
    unfold validateFilters at hvalid
    have hany := ((Bool.and_eq_true _ _).mp hvalid).1
    rw [Bool.or_eq_true] at hany
    rcases hany with hfalse | hany
    · simp at hfalse
    · rw [List.any_eq_true] at hany
      obtain ⟨k, hk, hcont⟩ := hany
      exact h k hk (by simpa using hcont)

theorem c7_witness :
    isPersistedTransaction [[("id", .str "a")]] (fun _ _ => true) [] =
      (.error .validation, []) ∧
    isPersistedTransaction [[("id", .str "a")]] (fun _ _ => true) [[("bogus", .num 1)]] =
      (.error .validation, []) :=
  ⟨c7_isPersisted_requires_filter [] [[("id", .str "a")]] (fun _ _ => true) (by decide),
   c7_isPersisted_requires_filter [[("bogus", .num 1)]] [[("id", .str "a")]]
     (fun _ _ => true) (by decide)⟩
